import Mathlib

/- Verification of the retrieval-and-dispatch pipeline of demo.py against its
   specification.  Pure fragments of the Python source are embedded as Lean
   functions; effectful fragments (ChromaDB collection mutation, the HTTP call
   to the generation endpoint, the orchestration in main) are embedded as
   explicit state-passing functions over the data the source manipulates.
   Machine-level details of the external collaborators (the embedding model,
   the vector store internals, the network) are abstracted as parameters. -/

/-! ## Python string primitives used by the source -/

/-- Embeds the character-list prefix test underlying Python substring search:
`isPrefixCL needle haystack` holds when `needle` is an initial segment of
`haystack`. -/
def isPrefixCL : List Char → List Char → Bool
  | [], _ => true
  | _ :: _, [] => false
  | a :: as, b :: bs => a == b && isPrefixCL as bs

/-- Embeds the Python substring operator `needle in haystack` on character
lists: some suffix of `haystack` starts with `needle`. -/
def pyInCL (needle : List Char) : List Char → Bool
  | [] => needle.isEmpty
  | c :: t => isPrefixCL needle (c :: t) || pyInCL needle t

/-- Embeds the Python substring operator `needle in haystack` on strings. -/
def pyIn (needle haystack : String) : Bool :=
  pyInCL needle.data haystack.data

/-- Embeds Python `str.lower` (ASCII case folding, per character). -/
def lowerStr (s : String) : String :=
  ⟨s.data.map Char.toLower⟩

/-- Embeds Python `str.strip` on a character list: drop whitespace from the
front, then drop whitespace from the back. -/
def stripCL (l : List Char) : List Char :=
  ((l.dropWhile Char.isWhitespace).reverse.dropWhile Char.isWhitespace).reverse

/-- Embeds Python `str.strip` on strings. -/
def pythonStrip (s : String) : String :=
  ⟨stripCL s.data⟩

/-- Whether a string begins with a whitespace character. -/
def startsWithWS (s : String) : Bool :=
  match s.data with
  | [] => false
  | c :: _ => c.isWhitespace

/-- Whether a string ends with a whitespace character. -/
def endsWithWS (s : String) : Bool :=
  match s.data.getLast? with
  | none => false
  | some c => c.isWhitespace

/-! ## Chunker -/

/-- Modelled from the spec: the chunking algorithm itself is not in the
repository source — `textsplitter` (demo.py line 35) delegates to the
third-party `langchain_text_splitters.RecursiveCharacterTextSplitter`.
Section 4.1 of the spec describes the chunker as a fixed-step sliding
window: consecutive windows of length `chunk_size` whose start positions are
`step = chunk_size - overlap` apart; window generation stops with the first
window that reaches the end of the text, so the last window may be shorter
(truncated at end-of-text) and is emitted when non-empty, as on the spec's
own example split("ABCDEFGHIJ", 4, 1) = ["ABCD", "DEFG", "GHIJ"] where no
fourth window starting at offset 9 is produced.  `splitChunksF` realises
that contract on character lists; the `fuel` argument, instantiated with
the length of the text, only serves to make the recursion structural. -/
def splitChunksF (chunk_size step : Nat) : Nat → List Char → List (List Char)
  | _, [] => []
  | 0, _ :: _ => []
  | fuel + 1, c :: cs =>
      if cs.length + 1 ≤ chunk_size then [c :: cs]
      else (c :: cs).take chunk_size :: splitChunksF chunk_size step fuel (cs.drop (step - 1))

/-- Modelled from the spec: `split(text, chunk_size, overlap)` of section 4.1
(see `splitChunksF`). -/
def split (text : String) (chunk_size overlap : Nat) : List String :=
  (splitChunksF chunk_size (chunk_size - overlap) text.data.length text.data).map fun l => ⟨l⟩

/-- Embeds `textsplitter` (demo.py line 35): chunks the text with the
hard-coded parameters chunk_size = 1000 and chunk_overlap = 200, the
splitting algorithm being the spec-modelled `split`. -/
def textsplitter (text : String) : List String :=
  split text 1000 200

/-! ## Intent router -/

/-- Embeds `simple_planner` (demo.py line 102): lower-cases the query and
tests keyword containment in fixed priority order. -/
def simple_planner (query : String) : String :=
  let query_lower := lowerStr query
  if pyIn ("summarize") query_lower then "summarize"
  else if pyIn ("hr") query_lower && pyIn ("action") query_lower then "extract_hr"
  else "general"

/-! ## Prompt construction and generation -/

/-- Embeds the prompt construction of `tool_summarize` (demo.py line 112). -/
def tool_summarize_prompt (text : String) : String :=
  "Summarize the following text:\n\n" ++ text ++ "\n\nSummary:"

/-- Embeds the prompt construction of `tool_extract_hr_tasks` (demo.py
line 117). -/
def tool_extract_hr_tasks_prompt (text : String) : String :=
  "From the following text, extract action items relevant to the HR department:\n\n" ++ text ++ "\n\nItems:"

/-- Embeds the prompt construction of `tool_answer_question` (demo.py
lines 122-132): the f-string template embedding the retrieved context and
the question. -/
def tool_answer_question_prompt (text question : String) : String :=
  "\nUsing the following context, answer the question. If the answer is not in the context,\nsay you don\x27t know.\n\nContext:\n" ++ text ++ "\n\nQuestion: " ++ question ++ "\n\nAnswer:\n"

/-- Embeds the decoded response of the Together completions endpoint as
consumed by demo.py lines 95-99: the HTTP status code, the texts of the
completion choices, and the raw body used in the error log. -/
structure TogetherResponse where
  status_code : Nat
  choices : List String
  body : String
deriving DecidableEq

/-- Embeds `generate_answer_with_together` (demo.py lines 82-100) as a
function of the HTTP response it receives: status 200 yields the first
choice text stripped of surrounding whitespace, any other status makes the
source log the error and return None, rendered as `none`.  A success
response of the endpoint always carries at least one choice; on the
degenerate empty-choices body the source would raise an IndexError, likewise
rendered as no answer. -/
def generate_answer_with_together (response : TogetherResponse) : Option String :=
  if response.status_code = 200 then
    match response.choices with
    | [] => none
    | t :: _ => some (pythonStrip t)
  else none

/-- Embeds `tool_summarize` (demo.py line 111); `api` stands for the remote
endpoint mapping the posted prompt to an HTTP response. -/
def tool_summarize (api : String → TogetherResponse) (text : String) : Option String :=
  generate_answer_with_together (api (tool_summarize_prompt text))

/-- Embeds `tool_extract_hr_tasks` (demo.py line 116). -/
def tool_extract_hr_tasks (api : String → TogetherResponse) (text : String) : Option String :=
  generate_answer_with_together (api (tool_extract_hr_tasks_prompt text))

/-- Embeds `tool_answer_question` (demo.py line 121). -/
def tool_answer_question (api : String → TogetherResponse) (text question : String) : Option String :=
  generate_answer_with_together (api (tool_answer_question_prompt text question))

/-- Embeds the tool-selection block of `main` (demo.py lines 182-187) at
prompt level: which prompt the selected tool builds from the retrieved
context and the original user query. -/
def dispatch_prompt (action context query : String) : String :=
  if action == "summarize" then tool_summarize_prompt context
  else if action == "extract_hr" then tool_extract_hr_tasks_prompt context
  else tool_answer_question_prompt context query

/-! ## Vector index -/

/-- Embeds one ChromaDB collection entry: id, document text, and the
embedding computed by the collection embedding function.  The type `α`
abstracts the vector type of the external embedding collaborator. -/
structure IndexEntry (α : Type) where
  id : String
  document : String
  embedding : α
deriving DecidableEq

/-- Embeds `collection.count()`. -/
def collection_count {α : Type} (c : List (IndexEntry α)) : Nat :=
  c.length

/-- Embeds `collection.add(documents=chunks, ids=ids)` (demo.py line 72):
one entry per (id, document) pair, the embedding computed from the document
text by the collection embedding function `embed`. -/
def collection_add {α : Type} (embed : String → α) (c : List (IndexEntry α))
    (ids documents : List String) : List (IndexEntry α) :=
  c ++ (ids.zip documents).map fun p => ⟨p.1, p.2, embed p.2⟩

/-- Embeds the id list `[f"pdf_chunk_{i}" for i in range(len(chunks))]`
(demo.py line 70). -/
def pdf_chunk_ids (n : Nat) : List String :=
  (List.range n).map fun i => ("pdf_chunk_") ++ Nat.repr i

/-- Embeds `add_documents_to_collection` (demo.py lines 68-74).  The result
pairs the updated collection with the Python return value of the call: the
source returns None on both paths (it never returns an inserted count),
rendered as `none` in `Option Nat`. -/
def add_documents_to_collection {α : Type} (embed : String → α)
    (c : List (IndexEntry α)) (chunks : List String) :
    List (IndexEntry α) × Option Nat :=
  if collection_count c = 0 then
    (collection_add embed c (pdf_chunk_ids chunks.length) chunks, none)
  else
    (c, none)

/-! ## Pipeline orchestration -/

/-- Embeds `pdf_reader` (demo.py lines 21-32): `pages` holds the
extract_text result of each page (`none` for a page that yields no text),
`readFailure` a raised PdfReader exception.  Page texts are concatenated
each followed by a newline, pages without text contribute nothing, and an
exception makes the source log the error and return None. -/
def pdf_reader (pages : List (Option String)) (readFailure : Bool) : Option String :=
  if readFailure then none
  else some (pages.foldl (fun acc p => match p with | some t => acc ++ t ++ "\n" | none => acc) (""))

/-- Stages of `main` (demo.py lines 137-195), one constructor per pipeline
stage a run can perform. -/
inductive PipelineStep where
  | splitText
  | initDb
  | populate
  | retrieve
  | plan
  | dispatch
  | emitAnswer
  | exitNoText
deriving DecidableEq

/-- Embeds the Python truthiness test `not text` on the extraction result:
true for None and for the empty string. -/
def extractionFalsy : Option String → Bool
  | none => true
  | some t => t == ""

/-- Embeds the control flow of `main` (demo.py lines 137-195) at stage
granularity: on a falsy extraction result main prints the failure message
and returns before any further stage; otherwise it performs chunking,
database initialisation, population, retrieval, planning, tool dispatch and
answer emission, in this order. -/
def main_trace (extracted : Option String) : List PipelineStep :=
  if extractionFalsy extracted then [PipelineStep.exitNoText]
  else [PipelineStep.splitText, PipelineStep.initDb, PipelineStep.populate,
        PipelineStep.retrieve, PipelineStep.plan, PipelineStep.dispatch,
        PipelineStep.emitAnswer]

/-! ## Decimal rendering of naturals -/

/-- Decimal digit characters of a natural number, most significant first;
reference function used to reason about `Nat.repr`, the Lean counterpart of
Python `str` on the chunk position. -/
def decDigits (n : Nat) : List Char :=
  if h : n / 10 = 0 then [Nat.digitChar (n % 10)]
  else decDigits (n / 10) ++ [Nat.digitChar (n % 10)]
termination_by n
decreasing_by omega

/-- Decimal value of a digit character list, each digit read from its code
point. -/
def decValCL (l : List Char) : Nat :=
  l.foldl (fun acc c => 10 * acc + (c.toNat - 48)) 0

/-! ## Helper lemmas -/

theorem head?_dropWhile_false (p : Char → Bool) :
    ∀ (l : List Char) (c : Char), (l.dropWhile p).head? = some c → p c = false := by
  intro l
  induction l with
  | nil => intro c h; simp [List.dropWhile] at h
  | cons a t ih =>
    intro c h
    cases hp : p a with
    | true =>
      rw [show (a :: t).dropWhile p = t.dropWhile p by simp [List.dropWhile, hp]] at h
      exact ih c h
    | false =>
      rw [show (a :: t).dropWhile p = a :: t by simp [List.dropWhile, hp]] at h
      simp at h
      rw [← h]
      exact hp

theorem getLast?_dropWhile_of_ne_nil (p : Char → Bool) (l : List Char)
    (h : l.dropWhile p ≠ []) : (l.dropWhile p).getLast? = l.getLast? := by
  obtain ⟨t, ht⟩ := List.dropWhile_suffix (l := l) p
  conv_rhs => rw [← ht]
  exact (List.getLast?_append_of_ne_nil t h).symm

theorem stripCL_head (l : List Char) (c : Char) (h : (stripCL l).head? = some c) :
    c.isWhitespace = false := by
  rw [stripCL, List.head?_reverse] at h
  have hne : (l.dropWhile Char.isWhitespace).reverse.dropWhile Char.isWhitespace ≠ [] := by
    intro hnil
    rw [hnil] at h
    simp at h
  rw [getLast?_dropWhile_of_ne_nil _ _ hne, List.getLast?_reverse] at h
  exact head?_dropWhile_false Char.isWhitespace _ c h

theorem stripCL_last (l : List Char) (c : Char) (h : (stripCL l).getLast? = some c) :
    c.isWhitespace = false := by
  rw [stripCL, List.getLast?_reverse] at h
  exact head?_dropWhile_false Char.isWhitespace _ c h

theorem splitChunksF_nil (chunk_size step fuel : Nat) :
    splitChunksF chunk_size step fuel [] = [] := by
  cases fuel <;> rfl

theorem splitChunksF_length_pos (chunk_size step : Nat) :
    ∀ (fuel : Nat) (l : List Char), l ≠ [] → l.length ≤ fuel →
      0 < (splitChunksF chunk_size step fuel l).length := by
  intro fuel l hne hf
  cases l with
  | nil => exact absurd rfl hne
  | cons c t =>
    cases fuel with
    | zero => simp at hf
    | succ f =>
      simp only [splitChunksF]
      split <;> simp

theorem splitChunksF_getElem (chunk_size step : Nat) :
    ∀ (i fuel : Nat) (l : List Char), l.length ≤ fuel → 1 ≤ step →
      ∀ h : i < (splitChunksF chunk_size step fuel l).length,
      (splitChunksF chunk_size step fuel l)[i] = (l.drop (i * step)).take chunk_size := by
  intro i
  induction i with
  | zero =>
    intro fuel l hf hstep h
    cases l with
    | nil => rw [splitChunksF_nil] at h; simp at h
    | cons c t =>
      cases fuel with
      | zero => simp at hf
      | succ f =>
        simp only [splitChunksF]
        by_cases hle : t.length + 1 ≤ chunk_size
        · have htake : (c :: t).take chunk_size = c :: t :=
            List.take_of_length_le (by simp only [List.length_cons]; omega)
          simp [hle, htake]
        · simp [hle]
  | succ i ih =>
    intro fuel l hf hstep h
    cases l with
    | nil => rw [splitChunksF_nil] at h; simp at h
    | cons c t =>
      cases fuel with
      | zero => simp at hf
      | succ f =>
        simp only [List.length_cons, Nat.add_le_add_iff_right] at hf
        by_cases hle : t.length + 1 ≤ chunk_size
        · exfalso
          simp only [splitChunksF, List.length_cons, hle, if_true] at h
          simp at h
        · have hlen : (t.drop (step - 1)).length ≤ f := by
            rw [List.length_drop]
            omega
          have hbound : i < (splitChunksF chunk_size step f (t.drop (step - 1))).length := by
            simp only [splitChunksF, hle, if_false, List.length_cons] at h
            omega
          have hrec := ih f (t.drop (step - 1)) hlen hstep hbound
          simp only [splitChunksF, hle, if_false, List.getElem_cons_succ]
          rw [hrec, List.drop_drop]
          rw [Nat.succ_mul]
          rw [show i * step + step = (step - 1 + i * step) + 1 from by omega]
          rw [List.drop_succ_cons]

theorem splitChunksF_last_covers (chunk_size step : Nat) (hstep : 1 ≤ step)
    (hstep_le : step ≤ chunk_size) :
    ∀ (fuel : Nat) (l : List Char), l.length ≤ fuel → l ≠ [] →
      l.length ≤ ((splitChunksF chunk_size step fuel l).length - 1) * step + chunk_size := by
  intro fuel
  induction fuel with
  | zero =>
    intro l hf hne
    cases l with
    | nil => exact absurd rfl hne
    | cons c t => simp at hf
  | succ f ih =>
    intro l hf hne
    cases l with
    | nil => exact absurd rfl hne
    | cons c t =>
      simp only [List.length_cons, Nat.add_le_add_iff_right] at hf
      by_cases hle : t.length + 1 ≤ chunk_size
      · simp only [splitChunksF, List.length_cons, hle, if_true, List.length_singleton]
        omega
      · have hlt : chunk_size < t.length + 1 := by omega
        have hne2 : t.drop (step - 1) ≠ [] := by
          have : (t.drop (step - 1)).length = t.length - (step - 1) := List.length_drop _ _
          intro hnil
          rw [hnil] at this
          simp at this
          omega
        have hlen : (t.drop (step - 1)).length ≤ f := by
          rw [List.length_drop]
          omega
        have hrec := ih (t.drop (step - 1)) hlen hne2
        have hpos := splitChunksF_length_pos chunk_size step f (t.drop (step - 1)) hne2 hlen
        rw [List.length_drop] at hrec
        simp only [splitChunksF, hle, if_false, List.length_cons]
        obtain ⟨m, hm⟩ : ∃ m, (splitChunksF chunk_size step f (t.drop (step - 1))).length = m + 1 :=
          ⟨(splitChunksF chunk_size step f (t.drop (step - 1))).length - 1, by omega⟩
        rw [hm] at hrec ⊢
        simp only [Nat.add_sub_cancel] at hrec ⊢
        rw [Nat.succ_mul]
        omega

theorem splitChunksF_inner_full (chunk_size step : Nat) (hstep : 1 ≤ step) :
    ∀ (i fuel : Nat) (l : List Char), l.length ≤ fuel →
      i + 1 < (splitChunksF chunk_size step fuel l).length →
      i * step + chunk_size < l.length := by
  intro i
  induction i with
  | zero =>
    intro fuel l hf h
    cases l with
    | nil => rw [splitChunksF_nil] at h; simp at h
    | cons c t =>
      cases fuel with
      | zero => simp at hf
      | succ f =>
        by_cases hle : t.length + 1 ≤ chunk_size
        · exfalso
          simp only [splitChunksF, hle, if_true, List.length_singleton] at h
          omega
        · simp only [List.length_cons]
          omega
  | succ i ih =>
    intro fuel l hf h
    cases l with
    | nil => rw [splitChunksF_nil] at h; simp at h
    | cons c t =>
      cases fuel with
      | zero => simp at hf
      | succ f =>
        simp only [List.length_cons, Nat.add_le_add_iff_right] at hf
        by_cases hle : t.length + 1 ≤ chunk_size
        · exfalso
          simp only [splitChunksF, hle, if_true, List.length_singleton] at h
          omega
        · have hlen : (t.drop (step - 1)).length ≤ f := by
            rw [List.length_drop]
            omega
          have hbound : i + 1 < (splitChunksF chunk_size step f (t.drop (step - 1))).length := by
            simp only [splitChunksF, hle, if_false, List.length_cons] at h
            omega
          have hrec := ih f (t.drop (step - 1)) hlen hbound
          rw [List.length_drop] at hrec
          simp only [List.length_cons]
          rw [Nat.succ_mul]
          omega

theorem digitChar_toNat_sub (d : Nat) (h : d < 10) : (Nat.digitChar d).toNat - 48 = d := by
  interval_cases d <;> decide

theorem toDigitsCore_eq_decDigits :
    ∀ (f n : Nat) (l : List Char), n < f → Nat.toDigitsCore 10 f n l = decDigits n ++ l := by
  intro f
  induction f with
  | zero => intro n l h; omega
  | succ f ih =>
    intro n l h
    by_cases h0 : n / 10 = 0
    · simp only [Nat.toDigitsCore, h0, if_true]
      rw [decDigits, dif_pos h0]
      simp
    · simp only [Nat.toDigitsCore, h0, if_false]
      rw [ih (n / 10) _ (by omega)]
      conv_rhs => rw [decDigits]
      rw [dif_neg h0]
      simp

theorem decValCL_decDigits : ∀ n : Nat, decValCL (decDigits n) = n := by
  intro n
  induction n using Nat.strong_induction_on with
  | _ n ih =>
    by_cases h0 : n / 10 = 0
    · rw [decDigits, dif_pos h0]
      have hd := digitChar_toNat_sub (n % 10) (Nat.mod_lt n (by norm_num))
      simp only [decValCL, List.foldl_cons, List.foldl_nil, Nat.mul_zero, Nat.zero_add, hd]
      omega
    · rw [decDigits, dif_neg h0]
      have hfold : decValCL (decDigits (n / 10) ++ [Nat.digitChar (n % 10)]) =
          10 * decValCL (decDigits (n / 10)) + ((Nat.digitChar (n % 10)).toNat - 48) := by
        simp [decValCL, List.foldl_append]
      rw [hfold, ih (n / 10) (by omega),
        digitChar_toNat_sub (n % 10) (Nat.mod_lt n (by norm_num))]
      omega

theorem nat_repr_injective : Function.Injective Nat.repr := by
  intro m n h
  have hm : Nat.repr m = (decDigits m).asString := by
    show (Nat.toDigitsCore 10 (m + 1) m []).asString = (decDigits m).asString
    rw [toDigitsCore_eq_decDigits (m + 1) m [] (by omega), List.append_nil]
  have hn : Nat.repr n = (decDigits n).asString := by
    show (Nat.toDigitsCore 10 (n + 1) n []).asString = (decDigits n).asString
    rw [toDigitsCore_eq_decDigits (n + 1) n [] (by omega), List.append_nil]
  rw [hm, hn] at h
  have hdig : decDigits m = decDigits n := by
    have := congrArg String.data h
    simpa [List.asString] using this
  have := congrArg decValCL hdig
  rwa [decValCL_decDigits, decValCL_decDigits] at this

theorem pdf_chunk_ids_nodup (n : Nat) : (pdf_chunk_ids n).Nodup := by
  refine List.Nodup.map ?_ (List.nodup_range n)
  intro a b hab
  apply nat_repr_injective
  have hd := congrArg String.data hab
  rw [String.data_append, String.data_append] at hd
  have hcancel := List.append_cancel_left hd
  exact congrArg String.mk hcancel

theorem foldl_pages_all_none (pages : List (Option String))
    (hp : ∀ p ∈ pages, p = none) :
    ∀ acc : String,
      pages.foldl (fun acc p => match p with | some t => acc ++ t ++ "\n" | none => acc) acc = acc := by
  induction pages with
  | nil => intro acc; rfl
  | cons q t ih =>
    intro acc
    have hq : q = none := hp q (by simp)
    rw [hq]
    exact ih (fun p hmem => hp p (by simp [hmem])) acc

/-! ## Claim theorems -/

/-- Claim C2: for chunk_size > 0 and 0 ≤ overlap < chunk_size, the chunker
partitions the text into consecutive windows: window i holds the chunk_size
characters of the text starting i * (chunk_size - overlap) characters in (so
each window after the first starts chunk_size - overlap characters after the
previous window's start, and truncation at end-of-text can make the last
window shorter); non-empty text always emits at least one window and the
last emitted window reaches the end of the text, while every earlier window
has full length chunk_size and ends strictly before it; empty text emits
nothing; in particular split("ABCDEFGHIJ", 4, 1) = ["ABCD", "DEFG", "GHIJ"].
-/
theorem split_windows (text : String) (chunk_size overlap : Nat)
    (h1 : 0 < chunk_size) (h2 : overlap < chunk_size) :
    (∀ (i : Nat) (h : i < (split text chunk_size overlap).length),
        (split text chunk_size overlap)[i] =
          String.mk ((text.data.drop (i * (chunk_size - overlap))).take chunk_size))
    ∧ (text.data ≠ [] → 1 ≤ (split text chunk_size overlap).length
        ∧ text.length ≤
            ((split text chunk_size overlap).length - 1) * (chunk_size - overlap) + chunk_size)
    ∧ (∀ (i : Nat) (hi : i + 1 < (split text chunk_size overlap).length),
        i * (chunk_size - overlap) + chunk_size < text.length
        ∧ ((split text chunk_size overlap).get ⟨i, by omega⟩).length = chunk_size)
    ∧ (text.data = [] → split text chunk_size overlap = [])
    ∧ split ("ABCDEFGHIJ") 4 1 = [("ABCD"), ("DEFG"), ("GHIJ")] := by
  have hstep : 1 ≤ chunk_size - overlap := by omega
  have hstep_le : chunk_size - overlap ≤ chunk_size := by omega
  have hget : ∀ (i : Nat) (h : i < (split text chunk_size overlap).length),
      (split text chunk_size overlap)[i] =
        String.mk ((text.data.drop (i * (chunk_size - overlap))).take chunk_size) := by
    intro i h
    have hl : i < (splitChunksF chunk_size (chunk_size - overlap)
        text.data.length text.data).length := by
      simpa [split] using h
    have hg := splitChunksF_getElem chunk_size (chunk_size - overlap) i
      text.data.length text.data (Nat.le_refl _) hstep hl
    simp only [split, List.getElem_map]
    rw [hg]
  have hfull : ∀ i : Nat, i + 1 < (split text chunk_size overlap).length →
      i * (chunk_size - overlap) + chunk_size < text.length := by
    intro i h
    have hl : i + 1 < (splitChunksF chunk_size (chunk_size - overlap)
        text.data.length text.data).length := by
      simpa [split] using h
    exact splitChunksF_inner_full chunk_size (chunk_size - overlap) hstep i
      text.data.length text.data (Nat.le_refl _) hl
  refine ⟨hget, ?_, ?_, ?_, ?_⟩
  · intro hne
    have h1pos : 1 ≤ (split text chunk_size overlap).length := by
      have := splitChunksF_length_pos chunk_size (chunk_size - overlap)
        text.data.length text.data hne (Nat.le_refl _)
      simpa [split] using this
    have hcov := splitChunksF_last_covers chunk_size (chunk_size - overlap)
      hstep hstep_le text.data.length text.data (Nat.le_refl _) hne
    refine ⟨h1pos, ?_⟩
    have hlen_eq : (split text chunk_size overlap).length =
        (splitChunksF chunk_size (chunk_size - overlap)
          text.data.length text.data).length := by
      simp [split]
    rw [hlen_eq]
    exact hcov
  · intro i h
    refine ⟨hfull i h, ?_⟩
    have hi : i < (split text chunk_size overlap).length := by omega
    have := hget i hi
    rw [List.get_eq_getElem]
    simp only at this
    rw [this]
    show ((text.data.drop (i * (chunk_size - overlap))).take chunk_size).length = chunk_size
    rw [List.length_take, List.length_drop]
    have := hfull i h
    rw [show text.length = text.data.length from rfl] at this
    omega
  · intro hnil
    simp [split, hnil, splitChunksF_nil]
  · rfl

/-- Witness for C2 at the spec's own example. -/
theorem split_windows_witness :
    (0 : Nat) < 4 ∧ (1 : Nat) < 4
    ∧ split ("ABCDEFGHIJ") 4 1 = [("ABCD"), ("DEFG"), ("GHIJ")] :=
  ⟨by decide, by decide,
    (split_windows ("ABCDEFGHIJ") 4 1 (by decide) (by decide)).2.2.2.2⟩

/-- Claim C7: empty input text yields an empty chunk sequence, for every
parameter choice and for the source's `textsplitter` itself. -/
theorem split_empty_no_chunks :
    (∀ chunk_size overlap : Nat, split ("") chunk_size overlap = [])
    ∧ textsplitter ("") = [] :=
  ⟨fun _ _ => rfl, rfl⟩

/-- Claim C3: the intent classifier uses case-insensitive substring matching
in fixed priority order with first match winning: a query containing
"summarize" (after lower-casing) classifies as "summarize" regardless of the
other keywords; otherwise containing both "hr" and "action" classifies as
"extract_hr"; every other query classifies as "general"; and in particular
classify("please summarize the HR action items") = "summarize". -/
theorem simple_planner_priority (q : String) :
    (pyIn ("summarize") (lowerStr q) = true → simple_planner q = "summarize")
    ∧ (pyIn ("summarize") (lowerStr q) = false →
        pyIn ("hr") (lowerStr q) = true → pyIn ("action") (lowerStr q) = true →
        simple_planner q = "extract_hr")
    ∧ (pyIn ("summarize") (lowerStr q) = false →
        (pyIn ("hr") (lowerStr q) = false ∨ pyIn ("action") (lowerStr q) = false) →
        simple_planner q = "general")
    ∧ simple_planner ("please summarize the HR action items") = "summarize" := by
  refine ⟨?_, ?_, ?_, ?_⟩
  · intro h1
    simp [simple_planner, h1]
  · intro h1 h2 h3
    simp [simple_planner, h1, h2, h3]
  · intro h1 h2
    rcases h2 with h2 | h2 <;> simp [simple_planner, h1, h2]
  · rfl

/-- Witness for C3 on the spec's three example queries. -/
theorem simple_planner_priority_witness :
    simple_planner ("please summarize the HR action items") = "summarize"
    ∧ simple_planner ("list HR action items") = "extract_hr"
    ∧ simple_planner ("what is the title?") = "general" := by
  refine ⟨?_, ?_, ?_⟩
  · exact (simple_planner_priority ("please summarize the HR action items")).1 (by decide)
  · exact (simple_planner_priority ("list HR action items")).2.1
      (by decide) (by decide) (by decide)
  · exact (simple_planner_priority ("what is the title?")).2.2.1
      (by decide) (Or.inl (by decide))

/-- Claim C4: the prompt constructed by the GeneralQA branch contains the
supplied context and the original query verbatim as substrings, together
with the explicit instruction to say it does not know when the answer is
not in the context. -/
theorem tool_answer_question_prompt_contains (context original_query : String) :
    (∃ pre post : String,
        tool_answer_question_prompt context original_query = pre ++ context ++ post)
    ∧ (∃ pre post : String,
        tool_answer_question_prompt context original_query = pre ++ original_query ++ post)
    ∧ (∃ pre post : String,
        tool_answer_question_prompt context original_query =
          pre ++ ("say you don\x27t know") ++ post) := by
  refine ⟨?_, ?_, ?_⟩
  · refine ⟨"\nUsing the following context, answer the question. If the answer is not in the context,\nsay you don\x27t know.\n\nContext:\n",
      "\n\nQuestion: " ++ original_query ++ "\n\nAnswer:\n", ?_⟩
    simp [tool_answer_question_prompt, String.append_assoc]
  · refine ⟨"\nUsing the following context, answer the question. If the answer is not in the context,\nsay you don\x27t know.\n\nContext:\n" ++ context ++ "\n\nQuestion: ",
      "\n\nAnswer:\n", ?_⟩
    simp [tool_answer_question_prompt, String.append_assoc]
  · refine ⟨"\nUsing the following context, answer the question. If the answer is not in the context,\n",
      ".\n\nContext:\n" ++ context ++ "\n\nQuestion: " ++ original_query ++ "\n\nAnswer:\n", ?_⟩
    have hsplit : ("\nUsing the following context, answer the question. If the answer is not in the context,\nsay you don\x27t know.\n\nContext:\n" : String) =
        "\nUsing the following context, answer the question. If the answer is not in the context,\n" ++ ("say you don\x27t know") ++ ".\n\nContext:\n" := by
      decide
    rw [tool_answer_question_prompt, hsplit]
    simp only [String.append_assoc]

/-- Claim C8: for the Summarize and ExtractHRActions intents the constructed
prompt depends on the retrieved context only: dispatching with any two
original queries builds the identical prompt, namely the fixed template
wrapping the context. -/
theorem fixed_tools_ignore_query (context q1 q2 : String) :
    dispatch_prompt ("summarize") context q1 = dispatch_prompt ("summarize") context q2
    ∧ dispatch_prompt ("extract_hr") context q1 = dispatch_prompt ("extract_hr") context q2
    ∧ dispatch_prompt ("summarize") context q1 = tool_summarize_prompt context
    ∧ dispatch_prompt ("extract_hr") context q1 = tool_extract_hr_tasks_prompt context :=
  ⟨rfl, rfl, rfl, rfl⟩

/-- Claim C5: a non-success status from the remote generation call yields the
explicit absence-of-answer value `none` instead of an exception aborting the
run, and a success status yields the generated text. -/
theorem generate_answer_status (r : TogetherResponse) :
    (r.status_code ≠ 200 → generate_answer_with_together r = none)
    ∧ (∀ (t : String) (rest : List String), r.status_code = 200 → r.choices = t :: rest →
        generate_answer_with_together r = some (pythonStrip t)) := by
  constructor
  · intro h
    simp [generate_answer_with_together, h]
  · intro t rest h hc
    simp [generate_answer_with_together, h, hc]

/-- Witness for C5: a rate-limited response yields `none`, a success response
yields the generated text. -/
theorem generate_answer_status_witness :
    generate_answer_with_together ⟨500, [], ("rate limited")⟩ = none
    ∧ generate_answer_with_together ⟨200, [(" hi ")], ("")⟩ = some ("hi") := by
  constructor
  · exact (generate_answer_status ⟨500, [], ("rate limited")⟩).1 (by decide)
  · have h := (generate_answer_status ⟨200, [(" hi ")], ("")⟩).2 (" hi ") [] rfl rfl
    rw [h]
    decide

/-- Claim C10: on a successful generation response the returned answer is
the first completion's text with leading and trailing whitespace removed,
so it never begins or ends with whitespace. -/
theorem generate_answer_stripped (r : TogetherResponse) (t : String) (rest : List String)
    (h200 : r.status_code = 200) (hc : r.choices = t :: rest) :
    generate_answer_with_together r = some (pythonStrip t)
    ∧ startsWithWS (pythonStrip t) = false
    ∧ endsWithWS (pythonStrip t) = false := by
  refine ⟨by simp [generate_answer_with_together, h200, hc], ?_, ?_⟩
  · rw [startsWithWS]
    cases hh : (pythonStrip t).data with
    | nil => rfl
    | cons c l =>
      have hc2 : (stripCL t.data).head? = some c := by
        rw [show (stripCL t.data) = (pythonStrip t).data from rfl, hh]
        rfl
      exact stripCL_head t.data c hc2
  · rw [endsWithWS]
    cases hh : (pythonStrip t).data.getLast? with
    | none => rfl
    | some c =>
      have hc2 : (stripCL t.data).getLast? = some c := by
        rw [show (stripCL t.data) = (pythonStrip t).data from rfl]
        exact hh
      exact stripCL_last t.data c hc2

/-- Witness for C10 at a concrete successful response. -/
theorem generate_answer_stripped_witness :
    generate_answer_with_together ⟨200, [("  a b\n")], ("")⟩ = some ("a b")
    ∧ startsWithWS ("a b") = false
    ∧ endsWithWS ("a b") = false := by
  obtain ⟨h1, h2, h3⟩ :=
    generate_answer_stripped ⟨200, [("  a b\n")], ("")⟩ ("  a b\n") [] rfl rfl
  have hs : pythonStrip ("  a b\n") = ("a b") := by decide
  rw [hs] at h1 h2 h3
  exact ⟨h1, h2, h3⟩

/-- Counterexample for claim C1 as stated: on a collection already holding
one entry, populate inserts nothing but returns Python None (modelled as
`none`), not the count 0 the claim asserts. -/
theorem add_documents_nonempty_not_zero :
    ¬ ((add_documents_to_collection (fun _ => ())
        [⟨("pdf_chunk_0"), ("a"), ()⟩] [("b")]).2 = some 0) := by
  decide

/-- Claim C1 as amended: populating twice from a fresh empty collection
leaves exactly len(chunks) entries, not twice that; and on a collection
already holding at least one entry a populate call inserts nothing and
returns no inserted count (Python None). -/
theorem add_documents_idempotent {α : Type} (embed : String → α) (chunks : List String) :
    ((add_documents_to_collection embed
        ((add_documents_to_collection embed [] chunks).1) chunks).1).length = chunks.length
    ∧ ∀ c : List (IndexEntry α), 1 ≤ collection_count c →
        add_documents_to_collection embed c chunks = (c, none) := by
  constructor
  · cases chunks with
    | nil =>
      simp [add_documents_to_collection, collection_count, collection_add, pdf_chunk_ids]
    | cons x xs =>
      have hlen1 : ((add_documents_to_collection embed [] (x :: xs)).1).length =
          (x :: xs).length := by
        simp [add_documents_to_collection, collection_count, collection_add,
          pdf_chunk_ids, List.length_zip]
      have hne : ¬ collection_count ((add_documents_to_collection embed [] (x :: xs)).1) = 0 := by
        rw [collection_count, hlen1]
        simp
      rw [show (add_documents_to_collection embed
          ((add_documents_to_collection embed [] (x :: xs)).1) (x :: xs)) =
          ((add_documents_to_collection embed [] (x :: xs)).1, none) from by
        rw [add_documents_to_collection, if_neg hne]]
      exact hlen1
  · intro c hc
    have hne : ¬ collection_count c = 0 := by omega
    rw [add_documents_to_collection, if_neg hne]

/-- Witness for C1 (amended) at a concrete embedding function, chunk list
and pre-populated collection. -/
theorem add_documents_idempotent_witness :
    ((add_documents_to_collection (fun _ => ())
        ((add_documents_to_collection (fun _ => ()) [] [("a"), ("b")]).1)
        [("a"), ("b")]).1).length = [("a"), ("b")].length
    ∧ add_documents_to_collection (fun _ => ()) [⟨("x"), ("y"), ()⟩] [("a"), ("b")] =
        ([⟨("x"), ("y"), ()⟩], none) :=
  ⟨(add_documents_idempotent (fun _ => ()) [("a"), ("b")]).1,
    (add_documents_idempotent (fun _ => ()) [("a"), ("b")]).2
      [⟨("x"), ("y"), ()⟩] (by decide)⟩

/-- Counterexample for claim C6 as stated: committing the single chunk "a"
to an empty collection assigns it the id "pdf_chunk_0", which differs from
the "chunk_0" the claim asserts. -/
theorem add_documents_id_not_chunk :
    ((add_documents_to_collection (fun _ => ())
        ([] : List (IndexEntry Unit)) [("a")]).1).map IndexEntry.id = [("pdf_chunk_0")]
    ∧ (("pdf_chunk_0") : String) ≠ ("chunk_0") := by
  constructor
  · decide
  · decide

/-- Claim C6 as amended: committing chunks to an empty collection inserts
one (id, text, embedding) entry per chunk, the chunk at position i getting
the stable id "pdf_chunk_<i>" (not "chunk_<i>"), and the assigned ids are
pairwise distinct. -/
theorem add_documents_ids_spec {α : Type} (embed : String → α) (chunks : List String) :
    ((add_documents_to_collection embed [] chunks).1).length = chunks.length
    ∧ (∀ (i : Nat) (h : i < ((add_documents_to_collection embed [] chunks).1).length),
        (((add_documents_to_collection embed [] chunks).1)[i]).id =
          ("pdf_chunk_") ++ Nat.repr i)
    ∧ ((add_documents_to_collection embed [] chunks).1).map IndexEntry.document = chunks
    ∧ (((add_documents_to_collection embed [] chunks).1).map IndexEntry.id).Nodup := by
  have hids_len : (pdf_chunk_ids chunks.length).length = chunks.length := by
    simp [pdf_chunk_ids]
  have hres : (add_documents_to_collection embed [] chunks).1 =
      ((pdf_chunk_ids chunks.length).zip chunks).map fun p => ⟨p.1, p.2, embed p.2⟩ := by
    simp [add_documents_to_collection, collection_count, collection_add]
  have hlen : ((add_documents_to_collection embed [] chunks).1).length = chunks.length := by
    rw [hres]
    simp [List.length_zip, hids_len]
  refine ⟨hlen, ?_, ?_, ?_⟩
  · intro i h
    revert h
    rw [hres]
    intro h
    rw [List.getElem_map, List.getElem_zip]
    simp [pdf_chunk_ids]
  · rw [hres, List.map_map]
    have : (IndexEntry.document ∘ fun p : String × String => (⟨p.1, p.2, embed p.2⟩ : IndexEntry α)) =
        Prod.snd := by
      funext p
      rfl
    rw [this]
    exact List.map_snd_zip _ _ (le_of_eq hids_len.symm)
  · rw [hres, List.map_map]
    have : (IndexEntry.id ∘ fun p : String × String => (⟨p.1, p.2, embed p.2⟩ : IndexEntry α)) =
        Prod.fst := by
      funext p
      rfl
    rw [this, List.map_fst_zip _ _ (le_of_eq hids_len)]
    exact pdf_chunk_ids_nodup chunks.length

/-- Claim C9: a falsy extraction result (no text obtained, whether None or
the empty string) makes the run abort at once with the failure surfaced, and
no chunking, index population, retrieval or generation dispatch happens; a
PDF whose pages all yield no text produces such a falsy result. -/
theorem main_aborts_without_text (e : Option String) (h : e = none ∨ e = some ("")) :
    main_trace e = [PipelineStep.exitNoText]
    ∧ PipelineStep.splitText ∉ main_trace e
    ∧ PipelineStep.populate ∉ main_trace e
    ∧ PipelineStep.retrieve ∉ main_trace e
    ∧ PipelineStep.dispatch ∉ main_trace e
    ∧ ∀ pages : List (Option String), (∀ p ∈ pages, p = none) →
        extractionFalsy (pdf_reader pages false) = true := by
  have htrace : main_trace e = [PipelineStep.exitNoText] := by
    rcases h with rfl | rfl <;> simp [main_trace, extractionFalsy]
  refine ⟨htrace, ?_, ?_, ?_, ?_, ?_⟩
  · rw [htrace]; decide
  · rw [htrace]; decide
  · rw [htrace]; decide
  · rw [htrace]; decide
  · intro pages hp
    rw [pdf_reader, if_neg (by simp), extractionFalsy]
    rw [foldl_pages_all_none pages hp ("")]
    rfl

/-- Witness for C9 at the absent-text extraction result and a one-page PDF
with no extractable text. -/
theorem main_aborts_without_text_witness :
    main_trace none = [PipelineStep.exitNoText]
    ∧ extractionFalsy (pdf_reader [none] false) = true :=
  ⟨(main_aborts_without_text none (Or.inl rfl)).1,
    (main_aborts_without_text none (Or.inl rfl)).2.2.2.2.2 [none] (by simp)⟩

/-- Witness for C6 (amended) at a concrete two-chunk commit. -/
theorem add_documents_ids_spec_witness :
    (((add_documents_to_collection (fun _ => ())
        ([] : List (IndexEntry Unit)) [("a"), ("b")]).1).get ⟨0, by decide⟩).id =
      ("pdf_chunk_") ++ Nat.repr 0 := by
  have h := (add_documents_ids_spec (fun _ => ()) [("a"), ("b")]).2.1 0 (by decide)
  exact h
